import Mathlib

/-!
Shallow embedding of the grid-comparison frontend of the
CITS5553_Group_15_Deployment repository.

The algorithmic content checked here lives in
frontend-esri/src/components/ComparisonHeatmap.tsx (the useMemo that derives
grid dimensions, the quantile/value threshold and the hotspot count from the
grid.geojson features), frontend-esri/src/api/runs.ts (createRun and its
configuration defaults), and frontend-esri/src/ESRI3DComparisonApp.tsx
(isZipName / validateAndSet upload validation).

JavaScript numbers are embedded as rationals; null / undefined / non-finite
values are modelled explicitly where the source distinguishes them through
the strict null check and Number.isFinite. File names are embedded as lists
of characters, with the ASCII lowering / trimming / suffix test of the
source spelled out, because the claims about them only involve those
operations on concrete ASCII names.
-/

namespace SpecProof

/-- The thresholdMode prop of ComparisonHeatmap: "quantile" or "value". -/
inductive ThresholdMode
  | quantile
  | value
  deriving DecidableEq, Repr

/-- A cell value as ComparisonHeatmap sees it in a feature's properties.
The optional GeoJSON property may be null, may be a non-finite number
(NaN or an infinity; an absent property, i.e. undefined, passes the strict
null check but fails Number.isFinite just like NaN, so it is modelled by
the same constructor), or may be a finite number, embedded as a rational. -/
inductive CellVal
  | null
  | nonfinite
  | num (q : ℚ)
  deriving DecidableEq, Repr

/-- Properties of one GridFeature of the grid.geojson FeatureCollection:
grid indices ix, iy (non-negative, per the data-model invariant
0 ≤ ix < nx, 0 ≤ iy < ny) and the divergence value. -/
structure FeatureProps where
  ix : ℕ
  iy : ℕ
  value : CellVal
  deriving DecidableEq, Repr

/-- The vals array collected by the loop over grid.features: the values
passing the filter (value !== null && Number.isFinite(value)), in feature
order. -/
def extractVals (feats : List FeatureProps) : List ℚ :=
  feats.filterMap (fun f =>
    match f.value with
    | CellVal.num q => some q
    | _ => none)

/-- JavaScript array indexing s[i]: the element when 0 ≤ i < length,
undefined (modelled as none) otherwise. -/
def jsIdx (s : List ℚ) (i : ℤ) : Option ℚ :=
  if 0 ≤ i then s[i.toNat]? else none

/-- The ascending numeric sort [...vals].sort((a, b) => a - b). On a list
of plain numbers every ascending-sorted permutation is the same list, so
insertion sort embeds the JavaScript sort faithfully. -/
def sortVals (vals : List ℚ) : List ℚ :=
  List.insertionSort (· ≤ ·) vals

/-- The quantile branch of the threshold computation, on the sorted array s:
pos = (s.length - 1) * thresholdValue, base = floor(pos), rest = pos - base,
and thr = s[base + 1] !== undefined ? s[base] + rest * (s[base + 1] - s[base])
: s[base]. When s[base + 1] is defined but s[base] is not, the JavaScript
arithmetic on undefined yields NaN, modelled as none. -/
def quantileThr (s : List ℚ) (p : ℚ) : Option ℚ :=
  let pos : ℚ := ((s.length : ℚ) - 1) * p
  let base : ℤ := ⌊pos⌋
  let rest : ℚ := pos - (base : ℚ)
  match jsIdx s (base + 1), jsIdx s base with
  | some v1, some v0 => some (v0 + rest * (v1 - v0))
  | some _, none => none
  | none, o => o

/-- The threshold of ComparisonHeatmap's useMemo. thr starts as NaN
(modelled as none) and is assigned only when vals.length is truthy:
in quantile mode the interpolated quantile over the sorted values, in
value mode the literal thresholdValue. -/
def computeThr (vals : List ℚ) (mode : ThresholdMode) (p : ℚ) : Option ℚ :=
  if vals.length = 0 then none
  else
    match mode with
    | ThresholdMode.value => some p
    | ThresholdMode.quantile => quantileThr (sortVals vals) p

/-- The hotspot count: Number.isFinite(thr) ? vals.filter(v => v > thr).length
: 0. A some threshold is always finite here; NaN and undefined are none. -/
def hotspotCount (vals : List ℚ) (mode : ThresholdMode) (p : ℚ) : ℕ :=
  match computeThr vals mode p with
  | some t => (vals.filter (fun v => t < v)).length
  | none => 0

/-- The running maximum of the loop over grid.features: maxIx (resp. maxIy)
starts at 0 and is updated by if (ix > maxIx) maxIx = ix. -/
def maxIdx (feats : List FeatureProps) (sel : FeatureProps → ℕ) : ℕ :=
  feats.foldl (fun m f => if m < sel f then sel f else m) 0

/-- Result of the useMemo derivation (the colour-scale extrema cmpMin and
cmpMax, used only for rendering, are not part of any claim and are
omitted). -/
structure DeriveOut where
  nx : ℕ
  ny : ℕ
  thr : Option ℚ
  hotspots : ℕ
  deriving DecidableEq, Repr

/-- The useMemo body of ComparisonHeatmap for a present grid: one pass over
grid.features updates maxIx / maxIy and collects vals; then nx = maxIx + 1,
ny = maxIy + 1, and the threshold and hotspot count are derived from vals.
The single loop of the source is split into independent folds; the max
updates are order-independent and extractVals preserves the feature
order. -/
def gridDerive (feats : List FeatureProps) (mode : ThresholdMode) (p : ℚ) :
    DeriveOut :=
  { nx := maxIdx feats (fun f => f.ix) + 1
    ny := maxIdx feats (fun f => f.iy) + 1
    thr := computeThr (extractVals feats) mode p
    hotspots := hotspotCount (extractVals feats) mode p }

/-- The linear-interpolation quantile exactly as the spec words it: with s
the values sorted ascending, n the length of s and pos = p * (n - 1), the
quantile is s[floor(pos)] + (pos - floor(pos)) * (s[floor(pos)+1] -
s[floor(pos)]), taking s[floor(pos)] alone when floor(pos) is the last
index. Stated with total indexing (getD with default 0); the indices are in
range whenever p lies in [0, 1] and the values are non-empty. -/
def linQuantile (vals : List ℚ) (p : ℚ) : ℚ :=
  let s := sortVals vals
  let n := s.length
  let pos : ℚ := p * ((n : ℚ) - 1)
  let i : ℕ := (⌊pos⌋).toNat
  if i + 1 = n then s.getD i 0
  else s.getD i 0 + (pos - ((⌊pos⌋ : ℤ) : ℚ)) * (s.getD (i + 1) 0 - s.getD i 0)

/-- The comparison_method union type of createRun in
frontend-esri/src/api/runs.ts: "max" | "mean" | "median" | "chi2". -/
inductive Method
  | max
  | mean
  | median
  | chi2
  deriving DecidableEq, Repr

/-- The negatives union type of createRun: "NA" | "ZERO". -/
inductive NegPolicy
  | NA
  | ZERO
  deriving DecidableEq, Repr

/-- The form data assembled by createRun after its default parameter values
have been applied. -/
structure RunForm where
  comparison_method : Method
  chi2_bins : ℕ
  negatives : NegPolicy
  cell_size_m : ℚ
  threshold_mode : ThresholdMode
  threshold_value : ℚ
  deriving DecidableEq, Repr

/-- The createRun configuration bundle: each optional argument models a
TypeScript default parameter (none is an omitted argument), with the source
defaults chi2_bins = 10, negatives = "NA", cell_size_m = 100,
threshold_mode = "quantile", threshold_value = 0.9. -/
def createRunForm (comparison_method : Method)
    (chi2_bins : Option ℕ) (negatives : Option NegPolicy)
    (cell_size_m : Option ℚ) (threshold_mode : Option ThresholdMode)
    (threshold_value : Option ℚ) : RunForm :=
  { comparison_method := comparison_method
    chi2_bins := chi2_bins.getD 10
    negatives := negatives.getD NegPolicy.NA
    cell_size_m := cell_size_m.getD 100
    threshold_mode := threshold_mode.getD ThresholdMode.quantile
    threshold_value := threshold_value.getD (9 / 10) }

/-- Per-cell statistics entering the comparator: each may be null when the
cell received no contributing points from that dataset. -/
structure CellStats where
  stat_original : Option ℚ
  stat_dl : Option ℚ
  deriving DecidableEq, Repr

/-- Modelled from the spec: the backend CellComparator for the mean, median
and max methods is not under src/ (only the FastAPI backend, absent from
the snapshot, computes the cells of grid.geojson); per the spec, cmp =
stat_dl - stat_original when both are non-null, null if either input is
null, and value = cmp. The result pair is (cmp, value). -/
def compareCell (c : CellStats) : Option ℚ × Option ℚ :=
  match c.stat_original, c.stat_dl with
  | some a, some b => (some (b - a), some (b - a))
  | _, _ => (none, none)

/-- A File value as far as the upload validator inspects it: its name,
embedded as a list of characters. -/
structure FileRec where
  name : List Char
  deriving DecidableEq, Repr

/-- ASCII lowering of one character: the effect of
String.prototype.toLowerCase on the ASCII file names at issue here. -/
def jsToLower (c : Char) : Char :=
  if 'A' ≤ c ∧ c ≤ 'Z' then Char.ofNat (c.toNat + 32) else c

/-- Whitespace as removed by String.prototype.trim (restricted to the ASCII
whitespace characters, which suffices for the names considered). -/
def jsIsSpace (c : Char) : Bool :=
  c = ' ' || c = '\t' || c = '\n' || c = '\r'

/-- String.prototype.trim: remove leading and trailing whitespace. -/
def jsTrim (name : List Char) : List Char :=
  ((name.dropWhile jsIsSpace).reverse.dropWhile jsIsSpace).reverse

/-- The isZipName helper of ESRI3DComparisonApp:
name.toLowerCase().trim().endsWith(".zip"). -/
def isZipName (name : List Char) : Bool :=
  List.isSuffixOf (String.toList ".zip") (jsTrim (name.map jsToLower))

/-- The two upload slots of the app: kind = "original" | "dl". -/
inductive Slot
  | original
  | dl
  deriving DecidableEq, Repr

/-- The error message set by validateAndSet on a rejected file. -/
def zipErrMsg : List Char :=
  String.toList "Only .zip files are accepted."

/-- The React state touched by validateAndSet: the two selected files
(originalZip / dlZip) and the per-slot error messages. -/
structure UploadState where
  originalZip : Option FileRec
  dlZip : Option FileRec
  errOriginal : Option (List Char)
  errDl : Option (List Char)
  deriving DecidableEq, Repr

/-- The file selected in a slot. -/
def slotFile (st : UploadState) : Slot → Option FileRec
  | Slot.original => st.originalZip
  | Slot.dl => st.dlZip

/-- The error message of a slot. -/
def slotErr (st : UploadState) : Slot → Option (List Char)
  | Slot.original => st.errOriginal
  | Slot.dl => st.errDl

/-- The validateAndSet callback of ESRI3DComparisonApp: a null file clears
the slot's selection and error; a non-zip name only sets the slot's error
(the previously selected files are untouched); a zip name clears the error
and stores the file. The success toast is presentational and omitted. -/
def validateAndSet (st : UploadState) (file : Option FileRec) (kind : Slot) :
    UploadState :=
  match file with
  | none =>
      match kind with
      | Slot.original => { st with originalZip := none, errOriginal := none }
      | Slot.dl => { st with dlZip := none, errDl := none }
  | some f =>
      if isZipName f.name then
        match kind with
        | Slot.original => { st with originalZip := some f, errOriginal := none }
        | Slot.dl => { st with dlZip := some f, errDl := none }
      else
        match kind with
        | Slot.original => { st with errOriginal := some zipErrMsg }
        | Slot.dl => { st with errDl := some zipErrMsg }

/-- A concrete 2 by 2 grid used by the witnesses: divergence values
1, 2, 3, 4. -/
def feats4 : List FeatureProps :=
  [⟨0, 0, CellVal.num 1⟩, ⟨1, 0, CellVal.num 2⟩,
   ⟨0, 1, CellVal.num 3⟩, ⟨1, 1, CellVal.num 4⟩]

/-- A concrete grid with no non-null finite value, used by witnesses. -/
def featsNull : List FeatureProps :=
  [⟨0, 0, CellVal.null⟩, ⟨1, 0, CellVal.nonfinite⟩]

/-- An upload state with a previously accepted original file, used by
witnesses. -/
def stPrior : UploadState :=
  { originalZip := some ⟨String.toList "prior.zip"⟩
    dlZip := none
    errOriginal := none
    errDl := none }

/-- A file whose name does not end in .zip, used by witnesses. -/
def fCsv : FileRec :=
  ⟨String.toList "data.csv"⟩

lemma length_sortVals (vals : List ℚ) : (sortVals vals).length = vals.length :=
  List.length_insertionSort _ vals

lemma mem_sortVals {v : ℚ} {vals : List ℚ} : v ∈ sortVals vals ↔ v ∈ vals :=
  List.mem_insertionSort _

lemma sorted_sortVals (vals : List ℚ) : (sortVals vals).Sorted (· ≤ ·) :=
  List.sorted_insertionSort _ vals

lemma jsIdx_neg {s : List ℚ} {i : ℤ} (h : i < 0) : jsIdx s i = none := by
  simp only [jsIdx, if_neg (by omega : ¬ (0 : ℤ) ≤ i)]

lemma jsIdx_ge {s : List ℚ} {i : ℤ} (h : (s.length : ℤ) ≤ i) : jsIdx s i = none := by
  unfold jsIdx
  split
  · exact List.getElem?_eq_none (by omega)
  · rfl

lemma jsIdx_some {s : List ℚ} {i : ℤ} (h0 : 0 ≤ i) (h1 : i < (s.length : ℤ)) :
    jsIdx s i = some (s.getD i.toNat 0) := by
  have hlt : i.toNat < s.length := by omega
  unfold jsIdx
  rw [if_pos h0, List.getElem?_eq_getElem hlt, List.getD_eq_getElem _ _ hlt]

lemma quantileThr_of_base_neg {s : List ℚ} {p : ℚ}
    (h : ⌊((s.length : ℚ) - 1) * p⌋ < 0) : quantileThr s p = none := by
  have hb : jsIdx s ⌊((s.length : ℚ) - 1) * p⌋ = none := jsIdx_neg h
  unfold quantileThr
  rcases h1 : jsIdx s (⌊((s.length : ℚ) - 1) * p⌋ + 1) with _ | v1 <;>
    simp only [h1, hb]

lemma quantileThr_of_base_ge {s : List ℚ} {p : ℚ}
    (h : (s.length : ℤ) ≤ ⌊((s.length : ℚ) - 1) * p⌋) : quantileThr s p = none := by
  have hb : jsIdx s ⌊((s.length : ℚ) - 1) * p⌋ = none := jsIdx_ge h
  have hb1 : jsIdx s (⌊((s.length : ℚ) - 1) * p⌋ + 1) = none := jsIdx_ge (by omega)
  unfold quantileThr
  simp only [hb, hb1]

lemma quantileThr_of_base_last {s : List ℚ} {p : ℚ} (hs : 0 < s.length)
    (h : ⌊((s.length : ℚ) - 1) * p⌋ = (s.length : ℤ) - 1) :
    quantileThr s p = some (s.getD (s.length - 1) 0) := by
  have hb1 : jsIdx s (⌊((s.length : ℚ) - 1) * p⌋ + 1) = none := jsIdx_ge (by omega)
  have hb : jsIdx s ⌊((s.length : ℚ) - 1) * p⌋ =
      some (s.getD (s.length - 1) 0) := by
    rw [h]
    have := jsIdx_some (s := s) (i := (s.length : ℤ) - 1) (by omega) (by omega)
    rwa [(by omega : ((s.length : ℤ) - 1).toNat = s.length - 1)] at this
  unfold quantileThr
  simp only [hb, hb1]

lemma quantileThr_of_base_interp {s : List ℚ} {p : ℚ} {b : ℤ}
    (hb : ⌊((s.length : ℚ) - 1) * p⌋ = b) (h0 : 0 ≤ b)
    (h1 : b + 1 < (s.length : ℤ)) :
    quantileThr s p =
      some (s.getD b.toNat 0 +
        (((s.length : ℚ) - 1) * p - (b : ℚ)) *
          (s.getD (b.toNat + 1) 0 - s.getD b.toNat 0)) := by
  have hj0 : jsIdx s ⌊((s.length : ℚ) - 1) * p⌋ = some (s.getD b.toNat 0) := by
    rw [hb]; exact jsIdx_some h0 (by omega)
  have hj1 : jsIdx s (⌊((s.length : ℚ) - 1) * p⌋ + 1) =
      some (s.getD (b.toNat + 1) 0) := by
    rw [hb]
    have := jsIdx_some (s := s) (i := b + 1) (by omega) h1
    rwa [(by omega : (b + 1).toNat = b.toNat + 1)] at this
  rw [hb] at hj0 hj1
  unfold quantileThr
  simp only [hb, hj0, hj1]

lemma quantileThr_eq_spec (s : List ℚ) (p : ℚ) (hn : 0 < s.length)
    (hp0 : 0 ≤ p) (hp1 : p ≤ 1) :
    quantileThr s p = some (
      if (⌊p * ((s.length : ℚ) - 1)⌋).toNat + 1 = s.length then
        s.getD (⌊p * ((s.length : ℚ) - 1)⌋).toNat 0
      else
        s.getD (⌊p * ((s.length : ℚ) - 1)⌋).toNat 0 +
          (p * ((s.length : ℚ) - 1) - ((⌊p * ((s.length : ℚ) - 1)⌋ : ℤ) : ℚ)) *
            (s.getD ((⌊p * ((s.length : ℚ) - 1)⌋).toNat + 1) 0 -
              s.getD (⌊p * ((s.length : ℚ) - 1)⌋).toNat 0)) := by
  have hcomm : p * ((s.length : ℚ) - 1) = ((s.length : ℚ) - 1) * p := mul_comm _ _
  have hn1 : (1 : ℚ) ≤ (s.length : ℚ) := by exact_mod_cast hn
  have hpos0 : 0 ≤ ((s.length : ℚ) - 1) * p := mul_nonneg (by linarith) hp0
  have hpos1 : ((s.length : ℚ) - 1) * p ≤ (s.length : ℚ) - 1 := by nlinarith
  have hb0 : 0 ≤ ⌊((s.length : ℚ) - 1) * p⌋ := Int.floor_nonneg.mpr hpos0
  have hb1 : ⌊((s.length : ℚ) - 1) * p⌋ ≤ (s.length : ℤ) - 1 := by
    have h2 := Int.floor_le_floor hpos1
    have h3 : ⌊((s.length : ℚ) - 1)⌋ = (s.length : ℤ) - 1 := by
      rw [show ((s.length : ℚ) - 1) = (((s.length : ℤ) - 1 : ℤ) : ℚ) by
        push_cast; ring]
      exact Int.floor_intCast _
    rw [h3] at h2
    exact h2
  rw [hcomm]
  rcases eq_or_lt_of_le hb1 with heq | hlt
  · rw [quantileThr_of_base_last hn heq]
    have hidx : (⌊((s.length : ℚ) - 1) * p⌋).toNat = s.length - 1 := by omega
    rw [if_pos (by omega), hidx]
  · rw [quantileThr_of_base_interp rfl hb0 (by omega)]
    rw [if_neg (by omega)]

lemma le_foldl_maxStep (sel : FeatureProps → ℕ) (l : List FeatureProps) :
    ∀ a : ℕ, a ≤ l.foldl (fun m f => if m < sel f then sel f else m) a := by
  induction l with
  | nil => intro a; exact le_refl a
  | cons f fs ih =>
      intro a
      rw [List.foldl_cons]
      exact le_trans (by split <;> omega) (ih _)

lemma mem_le_foldl_maxStep (sel : FeatureProps → ℕ) (l : List FeatureProps) :
    ∀ (a : ℕ) (f : FeatureProps), f ∈ l →
      sel f ≤ l.foldl (fun m f => if m < sel f then sel f else m) a := by
  induction l with
  | nil => intro a f hf; exact absurd hf (List.not_mem_nil f)
  | cons f0 fs ih =>
      intro a f hf
      rw [List.foldl_cons]
      rcases List.mem_cons.mp hf with rfl | hf2
      · exact le_trans (by split <;> omega) (le_foldl_maxStep sel fs _)
      · exact ih _ _ hf2

lemma foldl_maxStep_mem (sel : FeatureProps → ℕ) (l : List FeatureProps) :
    ∀ a : ℕ,
      l.foldl (fun m f => if m < sel f then sel f else m) a = a ∨
        l.foldl (fun m f => if m < sel f then sel f else m) a ∈ l.map sel := by
  induction l with
  | nil => intro a; exact Or.inl rfl
  | cons f fs ih =>
      intro a
      rw [List.foldl_cons, List.map_cons]
      rcases ih (if a < sel f then sel f else a) with h | h
      · by_cases hc : a < sel f
        · right
          rw [h, if_pos hc]
          exact List.mem_cons_self _ _
        · left
          rw [h, if_neg hc]
      · right
        exact List.mem_cons_of_mem _ h

lemma le_maxIdx {feats : List FeatureProps} {sel : FeatureProps → ℕ}
    {f : FeatureProps} (hf : f ∈ feats) : sel f ≤ maxIdx feats sel :=
  mem_le_foldl_maxStep sel feats 0 f hf

lemma maxIdx_mem (feats : List FeatureProps) (sel : FeatureProps → ℕ)
    (hne : feats ≠ []) : maxIdx feats sel ∈ feats.map sel := by
  rcases foldl_maxStep_mem sel feats 0 with h0 | hm
  · cases feats with
    | nil => exact absurd rfl hne
    | cons f0 fs =>
        have h1 : sel f0 ≤ maxIdx (f0 :: fs) sel :=
          le_maxIdx (List.mem_cons_self f0 fs)
        have h2 : maxIdx (f0 :: fs) sel = 0 := h0
        have h3 : sel f0 = 0 := by omega
        rw [List.map_cons, h2, ← h3]
        exact List.mem_cons_self _ _
  · exact hm

lemma sortVals_1234 : sortVals [1, 2, 3, 4] = [(1 : ℚ), 2, 3, 4] := by
  norm_num [sortVals, List.insertionSort, List.orderedInsert]

lemma computeThr_1234_half :
    computeThr [1, 2, 3, 4] ThresholdMode.quantile (1 / 2) = some (5 / 2) := by
  have hb : ⌊((([(1 : ℚ), 2, 3, 4] : List ℚ).length : ℚ) - 1) * (1 / 2)⌋ = 1 := by
    rw [Int.floor_eq_iff]; norm_num
  have h2 : jsIdx [(1 : ℚ), 2, 3, 4] (1 + 1) = some 3 := by decide
  have h1 : jsIdx [(1 : ℚ), 2, 3, 4] 1 = some 2 := by decide
  unfold computeThr
  rw [if_neg (by norm_num)]
  show quantileThr (sortVals [1, 2, 3, 4]) (1 / 2) = some (5 / 2)
  rw [sortVals_1234]
  simp only [quantileThr, hb, h2, h1]
  norm_num

lemma computeThr_1234_sixfifths :
    computeThr [1, 2, 3, 4] ThresholdMode.quantile (6 / 5) = some 4 := by
  have hb : ⌊((([(1 : ℚ), 2, 3, 4] : List ℚ).length : ℚ) - 1) * (6 / 5)⌋ = 3 := by
    rw [Int.floor_eq_iff]; norm_num
  have h2 : jsIdx [(1 : ℚ), 2, 3, 4] (3 + 1) = none := by decide
  have h1 : jsIdx [(1 : ℚ), 2, 3, 4] 3 = some 4 := by decide
  unfold computeThr
  rw [if_neg (by norm_num)]
  show quantileThr (sortVals [1, 2, 3, 4]) (6 / 5) = some 4
  rw [sortVals_1234]
  simp only [quantileThr, hb, h2, h1]

lemma extractVals_feats4 : extractVals feats4 = [1, 2, 3, 4] := rfl

lemma extractVals_featsNull : extractVals featsNull = [] := rfl

/-- C1: for every non-empty list of finite divergence values and every
quantile parameter p in [0, 1], the quantile-mode threshold of
ComparisonHeatmap equals the linear-interpolation quantile stated by the
spec (position p * (n - 1) over the ascending-sorted values, interpolating
between adjacent order statistics, and taking the last order statistic
alone when floor of the position is the last index); in particular
quantile 0.5 over [1, 2, 3, 4] yields 2.5. -/
theorem quantile_threshold_is_linear_interpolation (vals : List ℚ) (p : ℚ)
    (hne : vals ≠ []) (hp0 : 0 ≤ p) (hp1 : p ≤ 1) :
    computeThr vals ThresholdMode.quantile p = some (linQuantile vals p) ∧
    computeThr [1, 2, 3, 4] ThresholdMode.quantile (1 / 2) = some (5 / 2) := by
  refine ⟨?_, computeThr_1234_half⟩
  have hlen0 : ¬ vals.length = 0 := by simpa [List.length_eq_zero] using hne
  have hn : 0 < (sortVals vals).length := by
    rw [length_sortVals]; omega
  have main := quantileThr_eq_spec (sortVals vals) p hn hp0 hp1
  unfold computeThr
  rw [if_neg hlen0]
  show quantileThr (sortVals vals) p = some (linQuantile vals p)
  rw [main]
  congr 1

/-- Witness for C1 at vals = [1, 2, 3, 4] and p = 1/2. -/
theorem quantile_threshold_is_linear_interpolation_witness :
    (0 : ℚ) ≤ 1 / 2 ∧ (1 : ℚ) / 2 ≤ 1 ∧ ([1, 2, 3, 4] : List ℚ) ≠ [] ∧
    computeThr [1, 2, 3, 4] ThresholdMode.quantile (1 / 2) =
      some (linQuantile [1, 2, 3, 4] (1 / 2)) :=
  ⟨by norm_num, by norm_num, by simp,
    (quantile_threshold_is_linear_interpolation [1, 2, 3, 4] (1 / 2)
      (by simp) (by norm_num) (by norm_num)).1⟩

/-- C2: whenever a finite threshold t is computed, the hotspot count equals
the number of non-null finite cell values strictly greater than t, and it
equals the same count taken after discarding the values exactly equal to t:
a cell whose value equals the threshold is not counted as a hotspot. -/
theorem hotspot_count_is_strictly_greater_count (feats : List FeatureProps)
    (mode : ThresholdMode) (p t : ℚ)
    (h : computeThr (extractVals feats) mode p = some t) :
    (gridDerive feats mode p).hotspots =
      ((extractVals feats).filter (fun v => t < v)).length ∧
    (gridDerive feats mode p).hotspots =
      (((extractVals feats).filter (fun v => v ≠ t)).filter
        (fun v => t < v)).length := by
  have h1 : (gridDerive feats mode p).hotspots =
      ((extractVals feats).filter (fun v => t < v)).length := by
    show hotspotCount (extractVals feats) mode p = _
    unfold hotspotCount
    rw [h]
  refine ⟨h1, h1.trans ?_⟩
  rw [List.filter_filter]
  congr 1
  apply List.filter_congr
  intro v hv
  by_cases hvt : t < v
  · simp [hvt, ne_of_gt hvt]
  · simp [hvt]

/-- Witness for C2 on the 2 by 2 grid with values [1, 2, 3, 4] and the
median threshold 5/2. -/
theorem hotspot_count_is_strictly_greater_count_witness :
    computeThr (extractVals feats4) ThresholdMode.quantile (1 / 2) =
      some (5 / 2) ∧
    (gridDerive feats4 ThresholdMode.quantile (1 / 2)).hotspots =
      ((extractVals feats4).filter (fun v => (5 : ℚ) / 2 < v)).length :=
  ⟨by rw [extractVals_feats4]; exact computeThr_1234_half,
    (hotspot_count_is_strictly_greater_count feats4 ThresholdMode.quantile
      (1 / 2) (5 / 2)
      (by rw [extractVals_feats4]; exact computeThr_1234_half)).1⟩

/-- C3: when no cell carries a non-null finite divergence value, the
derivation yields threshold none (the NaN sentinel of the source, rendered
as no threshold) and hotspot count 0, in every mode; the embedding is a
total function, so no error is raised. -/
theorem empty_value_set_yields_null_threshold (feats : List FeatureProps)
    (mode : ThresholdMode) (p : ℚ) (h : extractVals feats = []) :
    (gridDerive feats mode p).thr = none ∧
    (gridDerive feats mode p).hotspots = 0 := by
  have hc : computeThr (extractVals feats) mode p = none := by
    unfold computeThr
    rw [h]
    rfl
  constructor
  · exact hc
  · show hotspotCount (extractVals feats) mode p = 0
    unfold hotspotCount
    rw [hc]

/-- Witness for C3 on a grid holding only a null and a non-finite value,
covering both the quantile and the value mode. -/
theorem empty_value_set_yields_null_threshold_witness :
    extractVals featsNull = [] ∧
    (gridDerive featsNull ThresholdMode.quantile (9 / 10)).thr = none ∧
    (gridDerive featsNull ThresholdMode.value (9 / 10)).hotspots = 0 :=
  ⟨extractVals_featsNull,
    (empty_value_set_yields_null_threshold featsNull ThresholdMode.quantile
      (9 / 10) extractVals_featsNull).1,
    (empty_value_set_yields_null_threshold featsNull ThresholdMode.value
      (9 / 10) extractVals_featsNull).2⟩

/-- C4 counterexample: the quantile parameter 6/5 lies outside [0, 1], yet
the thresholding of ComparisonHeatmap does not fail and does produce a
threshold (the maximum value 4): the source performs no range validation
and no InvalidThresholdError exists on this code path. -/
theorem out_of_range_quantile_produces_threshold :
    (1 : ℚ) < 6 / 5 ∧
    computeThr [1, 2, 3, 4] ThresholdMode.quantile (6 / 5) = some 4 ∧
    computeThr [1, 2, 3, 4] ThresholdMode.quantile (6 / 5) ≠ none :=
  ⟨by norm_num, computeThr_1234_sixfifths, by
    rw [computeThr_1234_sixfifths]; simp⟩

/-- C4 amended: a quantile parameter outside [0, 1] is not rejected and
raises no error; the derivation completes, yielding either no finite
threshold together with a hotspot count of 0, or a threshold equal to the
last element of the ascending-sorted values (their maximum, reached when
the floored position lands on the last index). -/
theorem out_of_range_quantile_not_rejected (vals : List ℚ) (p : ℚ)
    (hne : vals ≠ []) (hp : p < 0 ∨ 1 < p) :
    (computeThr vals ThresholdMode.quantile p = none ∧
      hotspotCount vals ThresholdMode.quantile p = 0) ∨
    computeThr vals ThresholdMode.quantile p =
      some ((sortVals vals).getD ((sortVals vals).length - 1) 0) := by
  have hlen0 : ¬ vals.length = 0 := by simpa [List.length_eq_zero] using hne
  have hn : 0 < (sortVals vals).length := by
    rw [length_sortVals]; omega
  have hct : computeThr vals ThresholdMode.quantile p =
      quantileThr (sortVals vals) p := by
    unfold computeThr
    rw [if_neg hlen0]
  have hhot : ∀ _ : quantileThr (sortVals vals) p = none,
      hotspotCount vals ThresholdMode.quantile p = 0 := by
    intro hq
    unfold hotspotCount
    rw [hct, hq]
  rcases Nat.lt_or_ge 1 (sortVals vals).length with hn2 | hn1
  · have hn2q : (1 : ℚ) < ((sortVals vals).length : ℚ) := by exact_mod_cast hn2
    rcases hp with hneg | hgt
    · have hposneg : (((sortVals vals).length : ℚ) - 1) * p < 0 := by nlinarith
      have hb : ⌊(((sortVals vals).length : ℚ) - 1) * p⌋ < 0 := by
        by_contra hcon
        push_neg at hcon
        have h1 := Int.floor_le ((((sortVals vals).length : ℚ) - 1) * p)
        have h2 : (0 : ℚ) ≤ ((⌊(((sortVals vals).length : ℚ) - 1) * p⌋ : ℤ) : ℚ) := by
          exact_mod_cast hcon
        linarith
      have hq := quantileThr_of_base_neg hb
      exact Or.inl ⟨hct.trans hq, hhot hq⟩
    · have hb_ge : ((sortVals vals).length : ℤ) - 1 ≤
          ⌊(((sortVals vals).length : ℚ) - 1) * p⌋ := by
        apply Int.le_floor.mpr
        rw [show ((((sortVals vals).length : ℤ) - 1 : ℤ) : ℚ) =
          ((sortVals vals).length : ℚ) - 1 by push_cast; ring]
        nlinarith
      rcases eq_or_lt_of_le hb_ge with heq | hlt
      · exact Or.inr (hct.trans (quantileThr_of_base_last hn heq.symm))
      · have hq := quantileThr_of_base_ge (s := sortVals vals) (p := p) (by omega)
        exact Or.inl ⟨hct.trans hq, hhot hq⟩
  · have hlen1 : (sortVals vals).length = 1 := by omega
    have hfl : ⌊(((sortVals vals).length : ℚ) - 1) * p⌋ =
        ((sortVals vals).length : ℤ) - 1 := by
      rw [hlen1]
      norm_num
    exact Or.inr (hct.trans (quantileThr_of_base_last hn hfl))

/-- Witness for the amended C4 at vals = [1, 2, 3, 4] and p = 6/5. -/
theorem out_of_range_quantile_not_rejected_witness :
    (1 : ℚ) < 6 / 5 ∧
    ((computeThr [1, 2, 3, 4] ThresholdMode.quantile (6 / 5) = none ∧
        hotspotCount [1, 2, 3, 4] ThresholdMode.quantile (6 / 5) = 0) ∨
      computeThr [1, 2, 3, 4] ThresholdMode.quantile (6 / 5) =
        some ((sortVals [1, 2, 3, 4]).getD
          ((sortVals [1, 2, 3, 4]).length - 1) 0)) :=
  ⟨by norm_num,
    out_of_range_quantile_not_rejected [1, 2, 3, 4] (6 / 5) (by simp)
      (Or.inr (by norm_num))⟩

/-- C5: in value mode the threshold over a non-empty value set is the
literal provided parameter, and two runs with the same parameter over
different non-empty value sets produce identical thresholds. -/
theorem value_mode_threshold_is_literal (vals1 vals2 : List ℚ) (p : ℚ)
    (h1 : vals1 ≠ []) (h2 : vals2 ≠ []) :
    computeThr vals1 ThresholdMode.value p = some p ∧
    computeThr vals1 ThresholdMode.value p =
      computeThr vals2 ThresholdMode.value p := by
  have e : ∀ l : List ℚ, l ≠ [] → computeThr l ThresholdMode.value p = some p := by
    intro l hl
    unfold computeThr
    rw [if_neg (by simpa [List.length_eq_zero] using hl)]
  exact ⟨e vals1 h1, (e vals1 h1).trans (e vals2 h2).symm⟩

/-- Witness for C5 with value sets [1, 2, 3, 4] and [7] at parameter 3/2. -/
theorem value_mode_threshold_is_literal_witness :
    ([1, 2, 3, 4] : List ℚ) ≠ [] ∧ ([7] : List ℚ) ≠ [] ∧
    computeThr [1, 2, 3, 4] ThresholdMode.value (3 / 2) = some (3 / 2) ∧
    computeThr [1, 2, 3, 4] ThresholdMode.value (3 / 2) =
      computeThr [7] ThresholdMode.value (3 / 2) :=
  ⟨by simp, by simp,
    (value_mode_threshold_is_literal [1, 2, 3, 4] [7] (3 / 2)
      (by simp) (by simp)).1,
    (value_mode_threshold_is_literal [1, 2, 3, 4] [7] (3 / 2)
      (by simp) (by simp)).2⟩

/-- C6: the createRun configuration bundle recognizes exactly the methods
mean, median, max and chi2, and omitting the optional arguments applies
the defaults chi2_bins = 10, negatives = NA and cell_size_m = 100. -/
theorem run_creation_methods_and_defaults :
    (∀ m : Method,
      m = Method.mean ∨ m = Method.median ∨ m = Method.max ∨ m = Method.chi2) ∧
    ∀ m : Method,
      (createRunForm m none none none none none).chi2_bins = 10 ∧
      (createRunForm m none none none none none).negatives = NegPolicy.NA ∧
      (createRunForm m none none none none none).cell_size_m = 100 :=
  ⟨fun m => by cases m <;> simp, fun m => ⟨rfl, rfl, rfl⟩⟩

/-- C7: for the mean, median and max methods, cmp is null exactly when at
least one of stat_original and stat_dl is null, otherwise cmp equals
stat_dl - stat_original, and the cell's value equals cmp. -/
theorem comparator_signed_difference (c : CellStats) :
    ((compareCell c).1 = none ↔
      c.stat_original = none ∨ c.stat_dl = none) ∧
    (∀ a b : ℚ,
      (compareCell ⟨some a, some b⟩).1 = some (b - a)) ∧
    (compareCell c).2 = (compareCell c).1 := by
  obtain ⟨o, d⟩ := c
  cases o <;> cases d <;> simp [compareCell]

/-- C8: the threshold-and-hotspot derivation is a pure function of the
grid's features, the threshold mode and the threshold parameter, so two
evaluations on equal inputs produce equal outputs, and in particular equal
thresholds and equal hotspot counts. -/
theorem derivation_is_deterministic (feats1 feats2 : List FeatureProps)
    (mode1 mode2 : ThresholdMode) (p1 p2 : ℚ)
    (hf : feats1 = feats2) (hm : mode1 = mode2) (hp : p1 = p2) :
    gridDerive feats1 mode1 p1 = gridDerive feats2 mode2 p2 ∧
    (gridDerive feats1 mode1 p1).thr = (gridDerive feats2 mode2 p2).thr ∧
    (gridDerive feats1 mode1 p1).hotspots =
      (gridDerive feats2 mode2 p2).hotspots := by
  subst hf
  subst hm
  subst hp
  exact ⟨rfl, rfl, rfl⟩

/-- Witness for C8 at the concrete grid feats4. -/
theorem derivation_is_deterministic_witness :
    gridDerive feats4 ThresholdMode.quantile (9 / 10) =
      gridDerive feats4 ThresholdMode.quantile (9 / 10) :=
  (derivation_is_deterministic feats4 feats4 ThresholdMode.quantile
    ThresholdMode.quantile (9 / 10) (9 / 10) rfl rfl rfl).1

/-- C9: the upload validator rejects a non-null file whose lowercased,
trimmed name does not end in .zip by setting the slot's error message while
leaving both previously selected files unchanged, and a null file clears
the slot's selection and its error message. -/
theorem upload_validator_semantics (st : UploadState) (f : FileRec) (k : Slot)
    (h : isZipName f.name = false) :
    slotErr (validateAndSet st (some f) k) k = some zipErrMsg ∧
    slotFile (validateAndSet st (some f) k) Slot.original =
      slotFile st Slot.original ∧
    slotFile (validateAndSet st (some f) k) Slot.dl = slotFile st Slot.dl ∧
    slotFile (validateAndSet st none k) k = none ∧
    slotErr (validateAndSet st none k) k = none := by
  cases k <;> simp [validateAndSet, h, slotFile, slotErr]

/-- Witness for C9: rejecting data.csv in the original slot keeps the
previously selected prior.zip, and a null file clears the slot. -/
theorem upload_validator_semantics_witness :
    isZipName fCsv.name = false ∧
    slotErr (validateAndSet stPrior (some fCsv) Slot.original) Slot.original =
      some zipErrMsg ∧
    slotFile (validateAndSet stPrior (some fCsv) Slot.original) Slot.original =
      slotFile stPrior Slot.original ∧
    slotFile (validateAndSet stPrior none Slot.original) Slot.original = none :=
  ⟨by decide,
    (upload_validator_semantics stPrior fCsv Slot.original (by decide)).1,
    (upload_validator_semantics stPrior fCsv Slot.original (by decide)).2.1,
    (upload_validator_semantics stPrior fCsv Slot.original (by decide)).2.2.2.1⟩

/-- C10: the derived dimensions satisfy nx = 1 + max ix and ny = 1 + max iy
over all features regardless of their values: nx and ny are at least 1,
strictly bound every feature's indices, are attained at some feature when
the list is non-empty, and an empty feature list yields nx = ny = 1. -/
theorem grid_dimensions_bound_indices (feats : List FeatureProps)
    (mode : ThresholdMode) (p : ℚ) :
    1 ≤ (gridDerive feats mode p).nx ∧ 1 ≤ (gridDerive feats mode p).ny ∧
    (∀ f ∈ feats, f.ix < (gridDerive feats mode p).nx ∧
      f.iy < (gridDerive feats mode p).ny) ∧
    (feats ≠ [] →
      (gridDerive feats mode p).nx - 1 ∈ feats.map (fun f => f.ix) ∧
      (gridDerive feats mode p).ny - 1 ∈ feats.map (fun f => f.iy)) ∧
    (feats = [] →
      (gridDerive feats mode p).nx = 1 ∧ (gridDerive feats mode p).ny = 1) := by
  have hnx : (gridDerive feats mode p).nx = maxIdx feats (fun f => f.ix) + 1 := rfl
  have hny : (gridDerive feats mode p).ny = maxIdx feats (fun f => f.iy) + 1 := rfl
  refine ⟨by omega, by omega, ?_, ?_, ?_⟩
  · intro f hf
    have h1 : f.ix ≤ maxIdx feats (fun f => f.ix) := le_maxIdx hf
    have h2 : f.iy ≤ maxIdx feats (fun f => f.iy) := le_maxIdx hf
    omega
  · intro hne
    constructor
    · rw [hnx]
      simpa using maxIdx_mem feats (fun f => f.ix) hne
    · rw [hny]
      simpa using maxIdx_mem feats (fun f => f.iy) hne
  · intro he
    subst he
    exact ⟨rfl, rfl⟩

/-- Witness for C10 at the non-empty grid feats4 and the empty grid. -/
theorem grid_dimensions_bound_indices_witness :
    feats4 ≠ [] ∧
    (gridDerive feats4 ThresholdMode.quantile (1 / 2)).nx - 1 ∈
      feats4.map (fun f => f.ix) ∧
    (gridDerive ([] : List FeatureProps) ThresholdMode.quantile (1 / 2)).nx = 1 :=
  ⟨by simp [feats4],
    ((grid_dimensions_bound_indices feats4 ThresholdMode.quantile
      (1 / 2)).2.2.2.1 (by simp [feats4])).1,
    ((grid_dimensions_bound_indices ([] : List FeatureProps)
      ThresholdMode.quantile (1 / 2)).2.2.2.2 rfl).1⟩

end SpecProof
